import Mathlib

/-!
# Verification of the read-it-later content-extraction and sync core

Shallow embedding, in Lean 4, of the core functions of the read-it-later
article manager (`src/content-fetcher.js`, `src/reader.js`, and the
browser-extension popup logic), together with proofs of the behavioural
properties stated in the natural-language specification.

JavaScript strings are modelled as Lean `String`; machine-level details
that the source never relies on (UTF-16 code units vs characters) are
ignored.  Asynchronous functions are modelled as pure functions taking the
outcome of each external call (network request, token refresh) as an
explicit argument; a rejected promise is an `Except.error` or an explicit
failure outcome.
-/

/-! ## JavaScript string primitives used by the source -/

/-- The common whitespace characters matched by the JavaScript regex class
used throughout the source (space, tab, line feed, carriage return,
vertical tab, form feed). -/
def jsIsWs (c : Char) : Bool :=
  c = ' ' || c = '\t' || c = '\n' || c = '\r' || c = '\x0b' || c = '\x0c'

/-- `String.prototype.trim`: drop leading and trailing whitespace. -/
def jsTrim (s : String) : String :=
  ⟨((s.data.dropWhile jsIsWs).reverse.dropWhile jsIsWs).reverse⟩

/-- `String.prototype.toLowerCase`, modelled as the per-character simple
lowercase mapping. -/
def jsToLower (s : String) : String :=
  ⟨s.data.map Char.toLower⟩

/-- `String.prototype.includes` (substring containment) on character
lists. -/
def listIncludes (pat : List Char) : List Char → Bool
  | [] => pat.isPrefixOf []
  | c :: cs => pat.isPrefixOf (c :: cs) || listIncludes pat cs

/-- `String.prototype.includes`. -/
def strIncludes (s pat : String) : Bool :=
  listIncludes pat.data s.data

/-! ## Retrieval layer: `ContentFetcher.calculateReadingTime` -/

/-- `trimmed.split(/\s+/)` for a string `s` that is already trimmed.
JavaScript returns `[""]` for the empty string; otherwise (since `s` has
no leading or trailing whitespace) it returns the maximal runs of
non-whitespace characters. -/
def jsSplitTrimmedWs (s : String) : List String :=
  if s = "" then [""]
  else ((s.data.splitOnP jsIsWs).filter (· ≠ [])).map fun l => ⟨l⟩

/-- Number of whitespace-separated words of `s` (empty runs discarded),
used to state the reading-time property. -/
def wordCount (s : String) : Nat :=
  (((jsTrim s).data.splitOnP jsIsWs).filter (· ≠ [])).length

/-- `ContentFetcher.calculateReadingTime(content)`:
`if (!content) return 1;` then
`Math.max(1, Math.ceil(content.trim().split(/\s+/).length / 200))`.
The argument is `none` for JavaScript `null`/`undefined`; the empty
string is falsy and also returns 1. -/
def calculateReadingTime (content : Option String) : Nat :=
  match content with
  | none => 1
  | some c =>
    if c = "" then 1
    else
      let words := (jsSplitTrimmedWs (jsTrim c)).length
      let minutes := (words + 199) / 200
      max 1 minutes

/-! ## Retrieval layer: `ContentFetcher.fetchHTML` -/

/-- Outcome of one proxy strategy attempt: `fail` covers a network error,
a timeout abort, or a non-2xx response (all of which throw before the
body is inspected); `body html` means `response.text()` yielded `html`. -/
inductive FetchOutcome where
  | fail
  | body (html : String)
deriving DecidableEq, Repr

/-- The response validation of `fetchHTML`:
`html && html.includes('<') && html.length > 500`. -/
def isValidHTML (html : String) : Bool :=
  html != "" && html.data.contains '<' && decide (500 < html.length)

/-- `ContentFetcher.fetchHTML`, as a function of the outcome of each
strategy in order: try each strategy, return the first response passing
validation, rethrow into the next iteration otherwise, and fail with the
aggregate error once the strategy list is exhausted. -/
def fetchHTML : List FetchOutcome → Except String String
  | [] => .error "All proxies failed"
  | .fail :: rest => fetchHTML rest
  | .body h :: rest => if isValidHTML h then .ok h else fetchHTML rest

/-- A strategy outcome that returns and passes validation. -/
def outcomeValid : FetchOutcome → Bool
  | .fail => false
  | .body h => isValidHTML h

/-! ### Basic lemmas -/

/-- **C10.** `calculateReadingTime` always returns at least 1 (also for
`null` and the empty string), and for non-empty content it returns the
maximum of 1 and the word count divided by 200, rounded up. -/
theorem calculateReadingTime_spec :
    (∀ content : Option String, 1 ≤ calculateReadingTime content) ∧
    (∀ s : String, s ≠ "" →
      calculateReadingTime (some s) = max 1 ((wordCount s + 199) / 200)) := by
  constructor
  · intro content
    match content with
    | none => exact le_refl 1
    | some c =>
      by_cases hc : c = "" <;> simp [calculateReadingTime, hc]
  · intro s hs
    by_cases ht : jsTrim s = ""
    · simp only [calculateReadingTime, if_neg hs, wordCount, ht]
      decide
    · simp [calculateReadingTime, if_neg hs, wordCount, jsSplitTrimmedWs, if_neg ht]

/-- **C10 witness.** Concrete evaluation: 401 words take 3 minutes, the
empty and missing contents take 1 minute. -/
theorem calculateReadingTime_spec_witness :
    calculateReadingTime (some "one two three") = max 1 ((wordCount "one two three" + 199) / 200) ∧
    1 ≤ calculateReadingTime none :=
  ⟨calculateReadingTime_spec.2 "one two three" (by decide),
   calculateReadingTime_spec.1 none⟩

/-- **C8.** `fetchHTML` tries the strategies in order: the first strategy
whose response passes validation determines the returned HTML and no
error is raised, and the aggregate error is raised exactly when no
strategy produces a valid response. -/
theorem fetchHTML_fallback_chain :
    (∀ (pre post : List FetchOutcome) (h : String),
      (∀ o ∈ pre, outcomeValid o = false) → isValidHTML h = true →
      fetchHTML (pre ++ FetchOutcome.body h :: post) = .ok h) ∧
    (∀ outs : List FetchOutcome, (∀ o ∈ outs, outcomeValid o = false) →
      fetchHTML outs = .error "All proxies failed") := by
  constructor
  · intro pre post h hpre hvalid
    induction pre with
    | nil => simp [fetchHTML, hvalid]
    | cons o rest ih =>
      have ho : outcomeValid o = false := hpre o (by simp)
      have hrest : ∀ o ∈ rest, outcomeValid o = false := by
        intro x hx; exact hpre x (by simp [hx])
      cases o with
      | fail => simpa [fetchHTML] using ih hrest
      | body h2 =>
        simp only [outcomeValid] at ho
        simpa [fetchHTML, ho] using ih hrest
  · intro outs houts
    induction outs with
    | nil => rfl
    | cons o rest ih =>
      have ho : outcomeValid o = false := houts o (by simp)
      have hrest : ∀ o ∈ rest, outcomeValid o = false := by
        intro x hx; exact houts x (by simp [hx])
      cases o with
      | fail => simpa [fetchHTML] using ih hrest
      | body h2 =>
        simp only [outcomeValid] at ho
        simpa [fetchHTML, ho] using ih hrest

set_option maxRecDepth 10000 in
/-- **C8 witness.** With the first two strategies failing and the third
returning a valid page (501 characters containing a tag marker), the
third strategy wins and no error is raised. -/
theorem fetchHTML_fallback_chain_witness :
    fetchHTML [FetchOutcome.fail, FetchOutcome.fail,
        FetchOutcome.body ⟨List.replicate 501 '<'⟩] =
      .ok ⟨List.replicate 501 '<'⟩ :=
  fetchHTML_fallback_chain.1 [.fail, .fail] [] ⟨List.replicate 501 '<'⟩
    (by decide) (by decide)

/-! ## Local Cache Store: `LocalStorage` in `src/reader.js` -/

/-- A saved reading-list entry as stored in the local cache
(`STORAGE_KEY = 'readlater_articles'`).  Fields not touched by the
verified operations are omitted from the record without loss: the
operations treat the record shallowly. -/
structure Article where
  id : String
  url : String
  title : String
  category : String
  tags : List String
  isRead : Bool
  isFavorite : Bool
  isArchived : Bool
  folderId : Option String
  dateAdded : String
  readProgress : Nat
  content : String
deriving DecidableEq, Repr

/-- A shallow partial update as passed to `updateArticle(id, updates)`:
`some` fields are present on the update object and override the stored
record under the spread `{ ...articles[index], ...updates }`, `none`
fields are absent and preserved. -/
structure ArticleUpdates where
  id : Option String := none
  url : Option String := none
  title : Option String := none
  category : Option String := none
  tags : Option (List String) := none
  isRead : Option Bool := none
  isFavorite : Option Bool := none
  isArchived : Option Bool := none
  folderId : Option (Option String) := none
  dateAdded : Option String := none
  readProgress : Option Nat := none
  content : Option String := none
deriving DecidableEq, Repr

/-- The shallow merge `{ ...articles[index], ...updates }`. -/
def mergeArticle (a : Article) (u : ArticleUpdates) : Article where
  id := u.id.getD a.id
  url := u.url.getD a.url
  title := u.title.getD a.title
  category := u.category.getD a.category
  tags := u.tags.getD a.tags
  isRead := u.isRead.getD a.isRead
  isFavorite := u.isFavorite.getD a.isFavorite
  isArchived := u.isArchived.getD a.isArchived
  folderId := u.folderId.getD a.folderId
  dateAdded := u.dateAdded.getD a.dateAdded
  readProgress := u.readProgress.getD a.readProgress
  content := u.content.getD a.content

/-- `LocalStorage.addArticle`: `articles.unshift(article)` then
`saveArticles`.  The persisted collection is the function argument and
result; `saveArticles` is modelled as succeeding (storage-quota failures
are out of scope of the verified claims). -/
def LocalStorage.addArticle (articles : List Article) (a : Article) : List Article :=
  a :: articles

/-- `LocalStorage.updateArticle`: find the first record with the given
id (`findIndex`), shallow-merge the updates onto it and persist; return
`false` without touching the collection when the id is absent. -/
def LocalStorage.updateArticle (id : String) (u : ArticleUpdates) :
    List Article → Bool × List Article
  | [] => (false, [])
  | a :: rest =>
    if a.id = id then (true, mergeArticle a u :: rest)
    else
      let r := LocalStorage.updateArticle id u rest
      (r.1, a :: r.2)

/-- `LocalStorage.deleteArticle`: keep the records whose id differs. -/
def LocalStorage.deleteArticle (articles : List Article) (id : String) : List Article :=
  articles.filter fun a => a.id ≠ id

/-! ## Unified `Storage` interface (local-first write path) -/

/-- The module state consulted by `Storage`, together with the outcome of
the one remote write a call may attempt: `signedIn` is `currentUser`
being non-null, `configured` is `FirebaseService.isConfigured`, and
`remoteOk` tells whether the attempted Firestore write resolves
(`false` covers a rejected promise: the `FirebaseService` methods catch
the rejection and return `false`). -/
structure SyncCtx where
  signedIn : Bool
  configured : Bool
  remoteOk : Bool
deriving DecidableEq, Repr

/-- `Storage.addArticle`: always save to localStorage first; if signed in
also mirror to Firestore and return its boolean result (never throws). -/
def Storage.addArticle (ctx : SyncCtx) (st : List Article) (a : Article) :
    Except String Bool × List Article :=
  let st1 := LocalStorage.addArticle st a
  if ctx.signedIn && ctx.configured then (Except.ok ctx.remoteOk, st1)
  else (Except.ok true, st1)

/-- `Storage.updateArticle`: always update localStorage first; if signed
in also update Firestore, and throw
`Error('Failed to sync with cloud storage')` when the remote write
fails.  The thrown error happens after the local write is persisted. -/
def Storage.updateArticle (ctx : SyncCtx) (st : List Article) (id : String)
    (u : ArticleUpdates) : Except String Bool × List Article :=
  let r := LocalStorage.updateArticle id u st
  if ctx.signedIn && ctx.configured then
    if ctx.remoteOk then (Except.ok true, r.2)
    else (Except.error "Failed to sync with cloud storage", r.2)
  else (Except.ok true, r.2)

/-- `Storage.deleteArticle`: always delete from localStorage first; if
signed in also delete from Firestore and return its boolean result. -/
def Storage.deleteArticle (ctx : SyncCtx) (st : List Article) (id : String) :
    Except String Bool × List Article :=
  let st1 := LocalStorage.deleteArticle st id
  if ctx.signedIn && ctx.configured then (Except.ok ctx.remoteOk, st1)
  else (Except.ok true, st1)

/-- **C1.** Local-first durability: for every `Storage` call and every
remote outcome — including a failed or rejected remote write, and
including the case where `updateArticle` rethrows the failure — the
resulting local cache is exactly the locally-updated collection.  The
local write is applied first, is never undone, and no propagated
exception loses it. -/
theorem storage_local_first_durability :
    ∀ (ctx : SyncCtx) (st : List Article) (a : Article) (id : String) (u : ArticleUpdates),
      (Storage.addArticle ctx st a).2 = LocalStorage.addArticle st a ∧
      (Storage.updateArticle ctx st id u).2 = (LocalStorage.updateArticle id u st).2 ∧
      (Storage.deleteArticle ctx st id).2 = LocalStorage.deleteArticle st id := by
  intro ctx st a id u
  refine ⟨?_, ?_, ?_⟩ <;>
    simp only [Storage.addArticle, Storage.updateArticle, Storage.deleteArticle] <;>
    split_ifs <;> rfl

/-- **C9.** `LocalStorage.updateArticle` on an id absent from the stored
collection returns `false` and leaves the persisted collection
completely unchanged. -/
theorem localStorage_updateArticle_missing_id :
    ∀ (articles : List Article) (id : String) (u : ArticleUpdates),
      (∀ a ∈ articles, a.id ≠ id) →
      LocalStorage.updateArticle id u articles = (false, articles) := by
  intro articles id u h
  induction articles with
  | nil => rfl
  | cons a rest ih =>
    have ha : a.id ≠ id := h a (by simp)
    have hrest := ih fun x hx => h x (by simp [hx])
    simp [LocalStorage.updateArticle, ha, hrest]

/-- A concrete stored article used by the witnesses below. -/
def sampleArticle : Article where
  id := "a1"
  url := "https://example.com/post"
  title := "My Great Article"
  category := "general"
  tags := ["Design"]
  isRead := false
  isFavorite := false
  isArchived := false
  folderId := none
  dateAdded := "2024-01-01T00:00:00.000Z"
  readProgress := 0
  content := ""

/-- **C9 witness.** Updating an id that is not stored returns `false` and
the singleton collection is untouched. -/
theorem localStorage_updateArticle_missing_id_witness :
    LocalStorage.updateArticle "zzz" {} [sampleArticle] = (false, [sampleArticle]) :=
  localStorage_updateArticle_missing_id [sampleArticle] "zzz" {} (by decide)

/-! ## Extension popup: `handleSaveArticle` / `tryRefreshToken` -/

/-- The auth-expired classification of a remote-write error:
`error.message.includes('401') || error.message.includes('403') ||
error.message.includes('UNAUTHENTICATED')`. -/
def isAuthExpiredMessage (msg : String) : Bool :=
  strIncludes msg "401" || strIncludes msg "403" || strIncludes msg "UNAUTHENTICATED"

/-- The popup session state: `authed` is `currentUser && idToken` (the
auth blob in `chrome.storage.local`); `localRecords` stands for any
locally persisted article records on the device — `handleSaveArticle`
never touches them, which the theorems make explicit. -/
structure PopupState where
  authed : Bool
  localRecords : List Article
deriving DecidableEq, Repr

/-- `currentUser = null; idToken = null; await saveAuthState(null)`. -/
def clearAuthState (st : PopupState) : PopupState :=
  { st with authed := false }

/-- What one `handleSaveArticle` call did: how many `saveToFirestore`
attempts and `tryRefreshToken` attempts it made, the final status
message, and the final state. -/
structure SaveOutcome where
  writes : Nat
  refreshes : Nat
  status : String
  final : PopupState
deriving DecidableEq, Repr

/-- `handleSaveArticle`, as a function of the outcomes of its external
calls: `write1` is the first `saveToFirestore` attempt (`none` =
resolved, `some msg` = rejected with message `msg`), `refreshOk` the
result of `tryRefreshToken` (it catches internally and returns a
boolean), and `write2` the outcome of the retried write, consulted only
when a retry happens.  The tab-url guard is omitted: a page URL is
assumed present. -/
def handleSaveArticle (st : PopupState) (write1 : Option String)
    (refreshOk : Bool) (write2 : Option String) : SaveOutcome :=
  if !st.authed then
    { writes := 0, refreshes := 0, status := "Please sign in first", final := st }
  else
    match write1 with
    | none => { writes := 1, refreshes := 0, status := "Saved to Margins!", final := st }
    | some msg =>
      if isAuthExpiredMessage msg then
        if refreshOk then
          match write2 with
          | none =>
            { writes := 2, refreshes := 1, status := "Saved to Margins!", final := st }
          | some _ =>
            { writes := 2, refreshes := 1,
              status := "Session expired. Please sign in again.", final := clearAuthState st }
        else
          { writes := 1, refreshes := 1,
            status := "Session expired. Please sign in again.", final := clearAuthState st }
      else if strIncludes msg "already" then
        { writes := 1, refreshes := 0, status := "Article already saved!", final := st }
      else
        { writes := 1, refreshes := 0, status := "Failed to save: " ++ msg, final := st }

/-- **C2.** On a remote write failing with an auth-expired message the
popup attempts exactly one silent refresh; if the refresh succeeds it
retries the write exactly once (two write attempts in total) and a
successful retry ends with the success status and the session intact;
if the refresh fails, or the retried write fails, the session is marked
unauthenticated and the user is prompted to sign in again.  In every
case the locally persisted records are left intact. -/
theorem handleSaveArticle_auth_retry :
    ∀ (st : PopupState) (msg : String) (refreshOk : Bool) (write2 : Option String),
      st.authed = true → isAuthExpiredMessage msg = true →
      (handleSaveArticle st (some msg) refreshOk write2).refreshes = 1 ∧
      ((handleSaveArticle st (some msg) refreshOk write2).writes
        = if refreshOk then 2 else 1) ∧
      (refreshOk = true → write2 = none →
        (handleSaveArticle st (some msg) refreshOk write2).status = "Saved to Margins!" ∧
        (handleSaveArticle st (some msg) refreshOk write2).final = st) ∧
      (refreshOk = false ∨ write2 ≠ none →
        (handleSaveArticle st (some msg) refreshOk write2).final.authed = false ∧
        (handleSaveArticle st (some msg) refreshOk write2).status
          = "Session expired. Please sign in again.") ∧
      (handleSaveArticle st (some msg) refreshOk write2).final.localRecords
        = st.localRecords := by
  intro st msg refreshOk write2 hauth hmsg
  cases refreshOk <;> cases write2 <;>
    simp [handleSaveArticle, hauth, hmsg, clearAuthState]

/-- **C2 witness.** A write rejected with a 401 message followed by a
failed silent refresh: one refresh attempt, and the session ends
unauthenticated. -/
theorem handleSaveArticle_auth_retry_witness :
    (handleSaveArticle { authed := true, localRecords := [sampleArticle] }
      (some "Request failed: 401") false none).refreshes = 1 ∧
    (handleSaveArticle { authed := true, localRecords := [sampleArticle] }
      (some "Request failed: 401") false none).final.authed = false :=
  ⟨(handleSaveArticle_auth_retry _ "Request failed: 401" false none rfl (by decide)).1,
   ((handleSaveArticle_auth_retry _ "Request failed: 401" false none rfl
      (by decide)).2.2.2.1 (Or.inl rfl)).1⟩

/-! ## Remote Sync Engine: snapshot reception (`subscribeToArticles`) -/

/-- A raw snapshot document as delivered to the handler: `doc.id` plus
`doc.data()`.  `none` models a field absent from the document
(JavaScript `undefined`); for `folderId`, a field present but `null` is
`some none`. -/
structure SnapshotDoc where
  id : String
  url : Option String := none
  title : Option String := none
  category : Option String := none
  folderId : Option (Option String) := none
  isArchived : Option Bool := none
  isRead : Option Bool := none
  isFavorite : Option Bool := none
  tags : Option (List String) := none
  dateAdded : Option String := none
deriving DecidableEq, Repr

/-- An article as produced by the snapshot handler.  The defaulted
fields (`folderId`, `isArchived`, `isRead`, `tags`, `dateAdded`) are
total; every other field keeps exactly what the spread `...data`
delivered, absent staying absent. -/
structure SyncedArticle where
  id : String
  url : Option String
  title : Option String
  category : Option String
  folderId : Option String
  isArchived : Bool
  isRead : Bool
  isFavorite : Option Bool
  tags : List String
  dateAdded : String
deriving DecidableEq, Repr

/-- The per-document normalization of the snapshot handler:
`{ id: doc.id, ...data, folderId: data.folderId || null,
isArchived: data.isArchived || false, isRead: data.isRead || false,
tags: data.tags || [], dateAdded: data.dateAdded || now }`.
`||` follows JavaScript truthiness: absent, `null`, `false` and the
empty string are falsy; the empty array is truthy. -/
def normalizeSnapshotDoc (now : String) (d : SnapshotDoc) : SyncedArticle where
  id := d.id
  url := d.url
  title := d.title
  category := d.category
  folderId :=
    match d.folderId with
    | some (some s) => if s = "" then none else some s
    | _ => none
  isArchived := d.isArchived.getD false
  isRead := d.isRead.getD false
  isFavorite := d.isFavorite
  tags := d.tags.getD []
  dateAdded :=
    match d.dateAdded with
    | some s => if s = "" then now else s
    | none => now

/-- The snapshot handler: build the normalized article list from the
snapshot documents and `LocalStorage.saveArticles(articles)` — the
stored blob is replaced wholesale, whatever it previously held. -/
def applySnapshot (now : String) (docs : List SnapshotDoc)
    (_prevStore : List SyncedArticle) : List SyncedArticle :=
  docs.map (normalizeSnapshotDoc now)

/-- **C3 counterexample.** The claim also asserts that the missing
boolean flags default to `false`, but the handler defaults only
`isRead` and `isArchived`: a document without `isFavorite` is delivered
with `isFavorite` still absent, not `false`. -/
theorem normalizeSnapshotDoc_isFavorite_not_defaulted :
    (normalizeSnapshotDoc "2024-01-01T00:00:00.000Z" { id := "a1" }).isFavorite
      ≠ some false := by
  decide

/-- **C3 amended.** On every snapshot the local cache is replaced with
exactly the normalized snapshot contents — no pre-existing record
survives — and each element is normalized by defaulting a missing or
null `folderId` to null, missing `isRead` and `isArchived` to false,
missing `tags` to the empty list and a missing `dateAdded` to the
current time, while `isFavorite` is passed through unchanged (it is not
defaulted). -/
theorem snapshot_replaces_cache_and_normalizes :
    ∀ (now : String) (docs : List SnapshotDoc) (prev : List SyncedArticle),
      applySnapshot now docs prev = docs.map (normalizeSnapshotDoc now) ∧
      ∀ d ∈ docs,
        ((d.folderId = none ∨ d.folderId = some none) →
          (normalizeSnapshotDoc now d).folderId = none) ∧
        (d.isArchived = none → (normalizeSnapshotDoc now d).isArchived = false) ∧
        (d.isRead = none → (normalizeSnapshotDoc now d).isRead = false) ∧
        (d.tags = none → (normalizeSnapshotDoc now d).tags = []) ∧
        (d.dateAdded = none → (normalizeSnapshotDoc now d).dateAdded = now) ∧
        (normalizeSnapshotDoc now d).isFavorite = d.isFavorite ∧
        (normalizeSnapshotDoc now d).id = d.id := by
  intro now docs prev
  refine ⟨rfl, ?_⟩
  intro d _
  refine ⟨?_, ?_, ?_, ?_, ?_, rfl, rfl⟩
  · rintro (h | h) <;> simp [normalizeSnapshotDoc, h]
  · intro h; simp [normalizeSnapshotDoc, h]
  · intro h; simp [normalizeSnapshotDoc, h]
  · intro h; simp [normalizeSnapshotDoc, h]
  · intro h; simp [normalizeSnapshotDoc, h]

/-- **C3 amended witness.** A concrete snapshot containing one bare
document replaces a non-empty cache, and the defaults fire. -/
theorem snapshot_replaces_cache_and_normalizes_witness :
    applySnapshot "2024-06-01T00:00:00.000Z" [{ id := "a1" }]
        [normalizeSnapshotDoc "2024-01-01T00:00:00.000Z" { id := "old" }]
      = [normalizeSnapshotDoc "2024-06-01T00:00:00.000Z" { id := "a1" }] ∧
    (normalizeSnapshotDoc "2024-06-01T00:00:00.000Z" { id := "a1" }).isRead = false :=
  ⟨(snapshot_replaces_cache_and_normalizes "2024-06-01T00:00:00.000Z" [{ id := "a1" }]
      [normalizeSnapshotDoc "2024-01-01T00:00:00.000Z" { id := "old" }]).1,
   (((snapshot_replaces_cache_and_normalizes "2024-06-01T00:00:00.000Z" [{ id := "a1" }]
      []).2 { id := "a1" } (by simp)).2.2.1 rfl)⟩

/-! ## At-most-one-subscription: the auth listener and `subscribeToArticles` -/

/-- An auth-state change delivered to `onAuthStateChanged`: a signed-in
user, or `null`. -/
inductive AuthEvent where
  | signedIn
  | signedOut
deriving DecidableEq, Repr

/-- The subscription-related module state: the snapshot listeners
currently attached to the remote collection (identified by creation
index), the `unsubscribeSnapshot` handle (`null` or the most recently
stored unsubscribe function), and a counter for fresh listeners. -/
structure SubState where
  live : List Nat
  handle : Option Nat
  next : Nat
deriving DecidableEq, Repr

def SubState.init : SubState := { live := [], handle := none, next := 0 }

/-- `subscribeToArticles`: attaches a fresh snapshot listener and stores
its unsubscribe function in `unsubscribeSnapshot`, overwriting — without
calling — whatever handle was there before. -/
def subscribeToArticles (st : SubState) : SubState :=
  { live := st.live ++ [st.next], handle := some st.next, next := st.next + 1 }

/-- The `onAuthStateChanged` listener body: a signed-in user triggers
`subscribeToArticles()`; a signed-out event calls
`unsubscribeSnapshot()` when the handle is set and nulls it. -/
def authStep (st : SubState) : AuthEvent → SubState
  | .signedIn => subscribeToArticles st
  | .signedOut =>
    match st.handle with
    | some h => { st with live := st.live.erase h, handle := none }
    | none => st

/-- The state after a sequence of auth events, starting from start-up. -/
def runAuthEvents (events : List AuthEvent) : SubState :=
  events.foldl authStep SubState.init

/-- **C4 counterexample.** Two consecutive signed-in auth events reach a
state with two active snapshot listeners: `subscribeToArticles` does not
tear down the existing subscription first, so the claimed invariant
fails on this reachable state. -/
theorem two_sign_ins_give_two_listeners :
    (runAuthEvents [AuthEvent.signedIn, AuthEvent.signedIn]).live.length = 2 := by
  decide

/-- The shape invariant maintained while signed-in events only ever occur
with no subscription live: either no listener and no handle, or exactly
one listener, the one the handle refers to. -/
def SubInv (st : SubState) : Prop :=
  (st.handle = none ∧ st.live = []) ∨ ∃ h, st.handle = some h ∧ st.live = [h]

/-- Auxiliary induction for C4: processing events with no two consecutive
signed-in events preserves the shape invariant, provided a signed-in
event arrives only in the empty-handle shape. -/
theorem subInv_fold (events : List AuthEvent) :
    ∀ st : SubState,
      List.Chain' (fun a b => a = AuthEvent.signedIn → b ≠ AuthEvent.signedIn) events →
      ((st.handle = none ∧ st.live = []) ∨
        (SubInv st ∧ ∀ y ∈ events.head?, y ≠ AuthEvent.signedIn)) →
      SubInv (events.foldl authStep st) := by
  induction events with
  | nil =>
    intro st _ hst
    rcases hst with h | h
    · exact Or.inl h
    · exact h.1
  | cons e rest ih =>
    intro st hchain hst
    rw [List.chain'_cons'] at hchain
    rcases hchain with ⟨hhead, hrest⟩
    simp only [List.foldl_cons]
    cases e with
    | signedOut =>
      apply ih _ hrest
      left
      rcases hst with ⟨hh, hl⟩ | ⟨hinv, _⟩
      · simp [authStep, hh, hl]
      · rcases hinv with ⟨hh, hl⟩ | ⟨h, hh, hl⟩
        · simp [authStep, hh, hl]
        · simp [authStep, hh, hl]
    | signedIn =>
      have hempty : st.handle = none ∧ st.live = [] := by
        rcases hst with h | ⟨_, hhd⟩
        · exact h
        · exact absurd rfl (hhd AuthEvent.signedIn (by simp))
      apply ih _ hrest
      right
      constructor
      · right
        exact ⟨st.next, by simp [authStep, subscribeToArticles, hempty.2]⟩
      · intro y hy
        exact hhead y hy rfl

/-- **C4 amended.** The sign-out branch of the auth listener is the only
teardown: `subscribeToArticles` itself never tears down an existing
subscription.  Consequently the at-most-one-listener invariant holds
exactly for the event sequences in which no two signed-in auth events
are adjacent (every re-subscription is preceded by a sign-out, which
tears the old listener down); it fails otherwise, as the counterexample
shows. -/
theorem at_most_one_subscription_when_alternating :
    ∀ events : List AuthEvent,
      List.Chain' (fun a b => a = AuthEvent.signedIn → b ≠ AuthEvent.signedIn) events →
      (runAuthEvents events).live.length ≤ 1 := by
  intro events hchain
  have h := subInv_fold events SubState.init hchain (Or.inl ⟨rfl, rfl⟩)
  rcases h with ⟨_, hl⟩ | ⟨h, _, hl⟩ <;> simp [runAuthEvents] at * <;> simp [hl]

/-- **C4 amended witness.** Sign-in, sign-out, sign-in leaves a single
live listener. -/
theorem at_most_one_subscription_when_alternating_witness :
    (runAuthEvents [AuthEvent.signedIn, AuthEvent.signedOut, AuthEvent.signedIn]).live.length ≤ 1 :=
  at_most_one_subscription_when_alternating
    [AuthEvent.signedIn, AuthEvent.signedOut, AuthEvent.signedIn]
    (by simp [List.chain'_cons, List.chain'_singleton])

/-! ## Remote field envelope: `saveToFirestore` and the symmetric decode -/

/-- The typed-value envelope of the remote document API.  `integerValue`
is transported as a decimal string (`String(n)` on write, parsed back to
a number by the client SDK on read); that exact decimal round-trip is
abstracted into a `Nat` payload here. -/
inductive FsValue where
  | stringValue (s : String)
  | booleanValue (b : Bool)
  | integerValue (n : Nat)
  | arrayValue (vs : List FsValue)
  | nullValue

/-- A highlight record as held on an article (the envelope writer never
serializes its contents). -/
structure Highlight where
  id : String
  text : String
  color : String
  note : String
deriving DecidableEq, Repr

/-- The article object assembled by the popup before saving — the full
field set written by `saveToFirestore`. -/
structure PopupArticle where
  id : String
  url : String
  title : String
  category : String
  tags : List String
  isRead : Bool
  isFavorite : Bool
  isArchived : Bool
  dateAdded : String
  lastModified : String
  thumbnail : String
  excerpt : String
  content : String
  readingTime : Nat
  readProgress : Nat
  readCount : Nat
  totalReadTime : Nat
  highlights : List Highlight
  folderId : Option String
  lastReadAt : Option String
deriving DecidableEq, Repr

/-- JavaScript `s || ''` on a string. -/
def jsStrOrEmpty (s : String) : String :=
  if s = "" then "" else s

/-- JavaScript `n || 0` on a number. -/
def jsNatOrZero (n : Nat) : Nat :=
  if n = 0 then 0 else n

/-- The `fields` object of `saveToFirestore`, exactly as written: note
that `folderId` and `lastReadAt` are hard-coded to `nullValue` and
`highlights` to the empty array, whatever the article holds.  The
article id travels in the document path, not in the fields. -/
def saveToFirestoreFields (a : PopupArticle) : List (String × FsValue) :=
  [("url", .stringValue a.url),
   ("title", .stringValue a.title),
   ("category", .stringValue a.category),
   ("isRead", .booleanValue a.isRead),
   ("isFavorite", .booleanValue a.isFavorite),
   ("isArchived", .booleanValue a.isArchived),
   ("dateAdded", .stringValue a.dateAdded),
   ("lastModified", .stringValue a.lastModified),
   ("tags", .arrayValue (if a.tags.length > 0 then a.tags.map FsValue.stringValue else [])),
   ("thumbnail", .stringValue (jsStrOrEmpty a.thumbnail)),
   ("excerpt", .stringValue (jsStrOrEmpty a.excerpt)),
   ("readingTime", .integerValue (jsNatOrZero a.readingTime)),
   ("content", .stringValue (jsStrOrEmpty a.content)),
   ("highlights", .arrayValue []),
   ("readProgress", .integerValue (jsNatOrZero a.readProgress)),
   ("folderId", .nullValue),
   ("lastReadAt", .nullValue),
   ("readCount", .integerValue (jsNatOrZero a.readCount)),
   ("totalReadTime", .integerValue (jsNatOrZero a.totalReadTime))]

/-- Field lookup in the envelope (`undefined` when absent). -/
def lookupField : List (String × FsValue) → String → Option FsValue
  | [], _ => none
  | (k, v) :: rest, q => if k = q then some v else lookupField rest q

def asString : Option FsValue → Option String
  | some (.stringValue s) => some s
  | _ => none

def asBool : Option FsValue → Option Bool
  | some (.booleanValue b) => some b
  | _ => none

def asNat : Option FsValue → Option Nat
  | some (.integerValue n) => some n
  | _ => none

def asStringList : List FsValue → Option (List String)
  | [] => some []
  | .stringValue s :: rest => (asStringList rest).map (s :: ·)
  | _ => none

def asTags : Option FsValue → Option (List String)
  | some (.arrayValue vs) => asStringList vs
  | _ => none

/-- Decode of the highlights array.  The envelope written by
`saveToFirestore` never carries highlight elements (it always writes the
empty array), so only the empty array is decodable here. -/
def asHighlights : Option FsValue → Option (List Highlight)
  | some (.arrayValue []) => some []
  | _ => none

/-- The article as seen after the read path: SDK decode of each typed
value followed by the snapshot normalization of the web app.  `Option`
marks fields that can come back absent; the normalization's defaulted
fields are total. -/
structure DecodedArticle where
  id : String
  url : Option String
  title : Option String
  category : Option String
  tags : List String
  isRead : Bool
  isFavorite : Option Bool
  isArchived : Bool
  dateAdded : String
  lastModified : Option String
  thumbnail : Option String
  excerpt : Option String
  content : Option String
  readingTime : Option Nat
  readProgress : Option Nat
  readCount : Option Nat
  totalReadTime : Option Nat
  highlights : Option (List Highlight)
  folderId : Option String
  lastReadAt : Option String
deriving DecidableEq, Repr

/-- Symmetric decode of the envelope: each wrapper is unwrapped to its
JavaScript value, then the snapshot handler defaults are applied
(`folderId || null`, `isRead || false`, `isArchived || false`,
`tags || []`, `dateAdded || now`); everything else is the plain spread
`...data`. -/
def decodeFirestoreDoc (now : String) (id : String)
    (fields : List (String × FsValue)) : DecodedArticle where
  id := id
  url := asString (lookupField fields "url")
  title := asString (lookupField fields "title")
  category := asString (lookupField fields "category")
  tags := (asTags (lookupField fields "tags")).getD []
  isRead := (asBool (lookupField fields "isRead")).getD false
  isFavorite := asBool (lookupField fields "isFavorite")
  isArchived := (asBool (lookupField fields "isArchived")).getD false
  dateAdded :=
    match asString (lookupField fields "dateAdded") with
    | some s => if s = "" then now else s
    | none => now
  lastModified := asString (lookupField fields "lastModified")
  thumbnail := asString (lookupField fields "thumbnail")
  excerpt := asString (lookupField fields "excerpt")
  content := asString (lookupField fields "content")
  readingTime := asNat (lookupField fields "readingTime")
  readProgress := asNat (lookupField fields "readProgress")
  readCount := asNat (lookupField fields "readCount")
  totalReadTime := asNat (lookupField fields "totalReadTime")
  highlights := asHighlights (lookupField fields "highlights")
  folderId :=
    match lookupField fields "folderId" with
    | some (.stringValue s) => if s = "" then none else some s
    | _ => none
  lastReadAt :=
    match lookupField fields "lastReadAt" with
    | some (.stringValue s) => some s
    | _ => none

theorem jsStrOrEmpty_eq (s : String) : jsStrOrEmpty s = s := by
  by_cases h : s = "" <;> simp [jsStrOrEmpty, h]

theorem jsNatOrZero_eq (n : Nat) : jsNatOrZero n = n := by
  by_cases h : n = 0 <;> simp [jsNatOrZero, h]

theorem asStringList_map (l : List String) :
    asStringList (l.map FsValue.stringValue) = some l := by
  induction l with
  | nil => rfl
  | cons s rest ih => simp [asStringList, ih]

/-- The counterexample article for C6: identical to a freshly saved
article except that it sits in a folder. -/
def folderedArticle : PopupArticle where
  id := "article_1"
  url := "https://example.com/post"
  title := "My Great Article"
  category := "other"
  tags := []
  isRead := false
  isFavorite := false
  isArchived := false
  dateAdded := "2024-01-01T00:00:00.000Z"
  lastModified := "2024-01-01T00:00:00.000Z"
  thumbnail := ""
  excerpt := ""
  content := ""
  readingTime := 0
  readProgress := 0
  readCount := 0
  totalReadTime := 0
  highlights := []
  folderId := some "folder-1"
  lastReadAt := none

/-- **C6 counterexample.** Encoding an article with a non-null
`folderId` and decoding it back loses the folder: the writer hard-codes
`folderId: { nullValue: null }`, so the round-trip is not the identity
on every article. -/
theorem envelope_roundtrip_drops_folderId :
    (decodeFirestoreDoc "2024-06-01T00:00:00.000Z" folderedArticle.id
        (saveToFirestoreFields folderedArticle)).folderId
      ≠ folderedArticle.folderId := by
  decide

/-- **C6 amended.** For every article whose `folderId` and `lastReadAt`
are null, whose highlight list is empty, and whose `dateAdded` is
non-empty, encoding to the remote typed-value envelope and decoding back
preserves every field — including empty tag arrays and zero-valued
counters.  (The writer hard-codes `folderId`, `lastReadAt` and
`highlights`, so articles outside this set are not preserved, as the
counterexample shows; an empty `dateAdded` would be replaced by the
snapshot default.) -/
theorem envelope_roundtrip_preserves_fields :
    ∀ (now : String) (a : PopupArticle),
      a.folderId = none → a.lastReadAt = none → a.highlights = [] →
      a.dateAdded ≠ "" →
      (decodeFirestoreDoc now a.id (saveToFirestoreFields a)).id = a.id ∧
      (decodeFirestoreDoc now a.id (saveToFirestoreFields a)).url = some a.url ∧
      (decodeFirestoreDoc now a.id (saveToFirestoreFields a)).title = some a.title ∧
      (decodeFirestoreDoc now a.id (saveToFirestoreFields a)).category = some a.category ∧
      (decodeFirestoreDoc now a.id (saveToFirestoreFields a)).tags = a.tags ∧
      (decodeFirestoreDoc now a.id (saveToFirestoreFields a)).isRead = a.isRead ∧
      (decodeFirestoreDoc now a.id (saveToFirestoreFields a)).isFavorite = some a.isFavorite ∧
      (decodeFirestoreDoc now a.id (saveToFirestoreFields a)).isArchived = a.isArchived ∧
      (decodeFirestoreDoc now a.id (saveToFirestoreFields a)).dateAdded = a.dateAdded ∧
      (decodeFirestoreDoc now a.id (saveToFirestoreFields a)).lastModified = some a.lastModified ∧
      (decodeFirestoreDoc now a.id (saveToFirestoreFields a)).thumbnail = some a.thumbnail ∧
      (decodeFirestoreDoc now a.id (saveToFirestoreFields a)).excerpt = some a.excerpt ∧
      (decodeFirestoreDoc now a.id (saveToFirestoreFields a)).content = some a.content ∧
      (decodeFirestoreDoc now a.id (saveToFirestoreFields a)).readingTime = some a.readingTime ∧
      (decodeFirestoreDoc now a.id (saveToFirestoreFields a)).readProgress = some a.readProgress ∧
      (decodeFirestoreDoc now a.id (saveToFirestoreFields a)).readCount = some a.readCount ∧
      (decodeFirestoreDoc now a.id (saveToFirestoreFields a)).totalReadTime = some a.totalReadTime ∧
      (decodeFirestoreDoc now a.id (saveToFirestoreFields a)).highlights = some a.highlights ∧
      (decodeFirestoreDoc now a.id (saveToFirestoreFields a)).folderId = a.folderId ∧
      (decodeFirestoreDoc now a.id (saveToFirestoreFields a)).lastReadAt = a.lastReadAt := by
  intro now a hfolder hlast hhl hdate
  by_cases ht : a.tags = [] <;>
    simp [decodeFirestoreDoc, saveToFirestoreFields, lookupField, asString, asBool,
      asNat, asTags, asHighlights, asStringList, jsStrOrEmpty_eq, jsNatOrZero_eq,
      asStringList_map, hfolder, hlast, hhl, if_neg hdate, ht, List.length_pos]

/-- A freshly saved article: null `folderId`, empty arrays, zero
counters. -/
def freshArticle : PopupArticle :=
  { folderedArticle with folderId := none }

/-- **C6 amended witness.** The round-trip preserves the empty tag list
and a zero counter of a concrete freshly saved article. -/
theorem envelope_roundtrip_preserves_fields_witness :
    (decodeFirestoreDoc "2024-06-01T00:00:00.000Z" freshArticle.id
        (saveToFirestoreFields freshArticle)).tags = freshArticle.tags ∧
    (decodeFirestoreDoc "2024-06-01T00:00:00.000Z" freshArticle.id
        (saveToFirestoreFields freshArticle)).id = freshArticle.id :=
  ⟨(envelope_roundtrip_preserves_fields "2024-06-01T00:00:00.000Z" freshArticle
      rfl rfl rfl (by decide)).2.2.2.2.1,
   (envelope_roundtrip_preserves_fields "2024-06-01T00:00:00.000Z" freshArticle
      rfl rfl rfl (by decide)).1⟩

/-! ## Tag Normalizer: `normalizeExistingTags` -/

/-- Count one occurrence of casing `t` inside a group's variant table
(`entry[tag] = (entry[tag] || 0) + 1`; JavaScript object properties
iterate in insertion order, modelled by an ordered association list). -/
def bumpVariant : List (String × Nat) → String → List (String × Nat)
  | [], t => [(t, 1)]
  | (v, c) :: rest, t =>
    if v = t then (v, c + 1) :: rest else (v, c) :: bumpVariant rest t

/-- Record one tag occurrence under its lowercase key (`Map` entries
iterate in key-insertion order). -/
def addTagAux (key t : String) :
    List (String × List (String × Nat)) → List (String × List (String × Nat))
  | [] => [(key, [(t, 1)])]
  | (k, vs) :: rest =>
    if k = key then (k, bumpVariant vs t) :: rest else (k, vs) :: addTagAux key t rest

def addTag (m : List (String × List (String × Nat))) (t : String) :
    List (String × List (String × Nat)) :=
  addTagAux (jsToLower t) t m

/-- Step 1 of `normalizeExistingTags`: the frequency of every casing of
every tag, grouped by lowercase form, scanning the articles in order. -/
def buildTagMap (articles : List Article) : List (String × List (String × Nat)) :=
  articles.foldl (fun m a => a.tags.foldl addTag m) []

/-- One comparison of step 2: strictly greater count wins, so on ties
the earlier (first-encountered) variant is kept. -/
def pickBest (best : String × Int) (vc : String × Nat) : String × Int :=
  if (vc.2 : Int) > best.2 then (vc.1, (vc.2 : Int)) else best

/-- Step 2 for one group: `bestCurrent` starts as the lowercase key with
`maxCount = -1`, then every variant with a strictly higher count takes
over. -/
def bestVariant (k : String) (vs : List (String × Nat)) : String :=
  (vs.foldl pickBest (k, (-1 : Int))).1

/-- The canonical form of every lowercase group. -/
def canonicalMap (articles : List Article) : List (String × String) :=
  (buildTagMap articles).map fun kv => (kv.1, bestVariant kv.1 kv.2)

def lookupCanon : List (String × String) → String → Option String
  | [], _ => none
  | (k, v) :: rest, q => if k = q then some v else lookupCanon rest q

/-- `canonicalMap.get(t.toLowerCase()) || t`: a missing group — and a
canonical form that is the empty string, which is falsy — falls back to
the tag itself. -/
def applyCanon (cmap : List (String × String)) (t : String) : String :=
  match lookupCanon cmap (jsToLower t) with
  | some c => if c = "" then t else c
  | none => t

/-- Step 3 plus persistence: `if (!articles.length) return;` then
rewrite every article's tag list through the canonical map and call
`LocalStorage.saveArticles` once per article whose list actually changed
(the in-place mutation makes the final stored collection the fully
rewritten one); the second component counts those writes. -/
def normalizeExistingTags (articles : List Article) : List Article × Nat :=
  if articles.length = 0 then (articles, 0)
  else
    let cmap := canonicalMap articles
    (articles.map fun a => { a with tags := a.tags.map (applyCanon cmap) },
     (articles.filter fun a => a.tags.map (applyCanon cmap) ≠ a.tags).length)

/-- All tag occurrences of the collection, in scan order. -/
def allTags (articles : List Article) : List String :=
  articles.foldr (fun a acc => a.tags ++ acc) []

/-! ### Lemmas about the tag map construction -/

theorem bumpVariant_ne_nil (vs : List (String × Nat)) (t : String) :
    bumpVariant vs t ≠ [] := by
  match vs with
  | [] => simp [bumpVariant]
  | (v, c) :: rest =>
    by_cases h : v = t <;> simp [bumpVariant, h]

theorem bumpVariant_fst_mem (vs : List (String × Nat)) (t : String) :
    ∀ vc ∈ bumpVariant vs t, vc.1 ∈ vs.map Prod.fst ∨ vc.1 = t := by
  induction vs with
  | nil =>
    intro vc hvc
    simp [bumpVariant] at hvc
    simp [hvc]
  | cons hd rest ih =>
    intro vc hvc
    obtain ⟨v, c⟩ := hd
    by_cases h : v = t
    · simp only [bumpVariant, if_pos h] at hvc
      rcases List.mem_cons.1 hvc with h1 | h1
      · left; rw [h1, List.map_cons]; exact List.mem_cons_self _ _
      · left; rw [List.map_cons]
        exact List.mem_cons_of_mem _ (List.mem_map_of_mem Prod.fst h1)
    · simp only [bumpVariant, if_neg h] at hvc
      rcases List.mem_cons.1 hvc with h1 | h1
      · left; rw [h1, List.map_cons]; exact List.mem_cons_self _ _
      · rcases ih vc h1 with h2 | h2
        · left; rw [List.map_cons]; exact List.mem_cons_of_mem _ h2
        · right; exact h2

/-- The invariant of the tag map: every group is non-empty, and every
variant in a group lowers to the group key and occurs in `T`. -/
def TagMapInv (T : List String) (m : List (String × List (String × Nat))) : Prop :=
  ∀ kv ∈ m, kv.2 ≠ [] ∧ ∀ vc ∈ kv.2, jsToLower vc.1 = kv.1 ∧ vc.1 ∈ T

theorem tagMapInv_addTag {T : List String} {m : List (String × List (String × Nat))}
    (hm : TagMapInv T m) {t : String} (ht : t ∈ T) : TagMapInv T (addTag m t) := by
  unfold addTag
  induction m with
  | nil =>
    intro kv hkv
    simp [addTagAux] at hkv
    subst hkv
    refine ⟨by simp, ?_⟩
    intro vc hvc
    simp at hvc
    simp [hvc, ht]
  | cons hd rest ih =>
    obtain ⟨k, vs⟩ := hd
    have hhd := hm (k, vs) (by simp)
    have hrest : TagMapInv T rest := fun kv hkv => hm kv (by simp [hkv])
    by_cases h : k = jsToLower t
    · intro kv hkv
      simp only [addTagAux, if_pos h] at hkv
      rcases List.mem_cons.1 hkv with h1 | h1
      · subst h1
        refine ⟨bumpVariant_ne_nil vs t, ?_⟩
        intro vc hvc
        rcases bumpVariant_fst_mem vs t vc hvc with h2 | h2
        · rcases List.mem_map.1 h2 with ⟨vc0, hvc0, hfst⟩
          have hp := hhd.2 vc0 hvc0
          constructor
          · show jsToLower vc.1 = k
            rw [← hfst]
            exact hp.1
          · rw [← hfst]; exact hp.2
        · constructor
          · show jsToLower vc.1 = k
            rw [h2]; exact h.symm
          · rw [h2]; exact ht
      · exact hrest kv h1
    · intro kv hkv
      simp only [addTagAux, if_neg h] at hkv
      rcases List.mem_cons.1 hkv with h1 | h1
      · subst h1; exact hhd
      · exact ih hrest kv h1

theorem tagMapInv_foldl {T : List String} (ts : List String) :
    ∀ m, TagMapInv T m → (∀ t ∈ ts, t ∈ T) → TagMapInv T (ts.foldl addTag m) := by
  induction ts with
  | nil => intro m hm _; exact hm
  | cons t rest ih =>
    intro m hm hts
    simp only [List.foldl_cons]
    exact ih (addTag m t) (tagMapInv_addTag hm (hts t (by simp)))
      fun x hx => hts x (by simp [hx])

theorem buildTagMap_flatten (articles : List Article) :
    buildTagMap articles = (allTags articles).foldl addTag [] := by
  suffices h : ∀ (as : List Article) (m : List (String × List (String × Nat))),
      as.foldl (fun m a => a.tags.foldl addTag m) m = (allTags as).foldl addTag m by
    exact h articles []
  intro as
  induction as with
  | nil => intro m; rfl
  | cons a rest ih =>
    intro m
    have hshape : allTags (a :: rest) = a.tags ++ allTags rest := rfl
    rw [List.foldl_cons, hshape, List.foldl_append]
    exact ih _

theorem tagMapInv_buildTagMap (articles : List Article) :
    TagMapInv (allTags articles) (buildTagMap articles) := by
  rw [buildTagMap_flatten]
  exact tagMapInv_foldl (allTags articles) []
    (fun kv hkv => absurd hkv (List.not_mem_nil kv)) (fun t ht => ht)

theorem mem_keys_addTagAux_self (key t : String)
    (m : List (String × List (String × Nat))) :
    key ∈ (addTagAux key t m).map Prod.fst := by
  induction m with
  | nil => simp [addTagAux]
  | cons hd rest ih =>
    obtain ⟨k, vs⟩ := hd
    by_cases h : k = key
    · simp [addTagAux, h]
    · simp only [addTagAux, if_neg h, List.map_cons]
      exact List.mem_cons_of_mem _ ih

theorem mem_keys_addTagAux_preserve (key t k0 : String)
    (m : List (String × List (String × Nat)))
    (h : k0 ∈ m.map Prod.fst) : k0 ∈ (addTagAux key t m).map Prod.fst := by
  induction m with
  | nil => simp at h
  | cons hd rest ih =>
    obtain ⟨k, vs⟩ := hd
    rw [List.map_cons] at h
    by_cases hk : k = key
    · simp only [addTagAux, if_pos hk, List.map_cons]
      exact h
    · simp only [addTagAux, if_neg hk, List.map_cons]
      rcases List.mem_cons.1 h with h1 | h1
      · exact List.mem_cons.2 (Or.inl h1)
      · exact List.mem_cons.2 (Or.inr (ih h1))

theorem mem_keys_foldl_preserve (ts : List String) :
    ∀ (m : List (String × List (String × Nat))) (k0 : String),
      k0 ∈ m.map Prod.fst → k0 ∈ (ts.foldl addTag m).map Prod.fst := by
  induction ts with
  | nil => intro m k0 h; exact h
  | cons t rest ih =>
    intro m k0 h
    rw [List.foldl_cons]
    exact ih _ _ (mem_keys_addTagAux_preserve (jsToLower t) t k0 m h)

theorem mem_keys_foldl_self (ts : List String) :
    ∀ (m : List (String × List (String × Nat))) (t : String), t ∈ ts →
      jsToLower t ∈ (ts.foldl addTag m).map Prod.fst := by
  induction ts with
  | nil => intro m t h; simp at h
  | cons u rest ih =>
    intro m t h
    rw [List.foldl_cons]
    rcases List.mem_cons.1 h with h1 | h1
    · subst h1
      exact mem_keys_foldl_preserve rest _ _ (mem_keys_addTagAux_self _ _ m)
    · exact ih _ t h1

theorem mem_keys_buildTagMap {articles : List Article} {t : String}
    (h : t ∈ allTags articles) :
    jsToLower t ∈ (buildTagMap articles).map Prod.fst := by
  rw [buildTagMap_flatten]
  exact mem_keys_foldl_self (allTags articles) [] t h

theorem keys_canonicalMap (articles : List Article) :
    (canonicalMap articles).map Prod.fst = (buildTagMap articles).map Prod.fst := by
  unfold canonicalMap
  rw [List.map_map]
  rfl

theorem lookupCanon_mem :
    ∀ (m : List (String × String)) (q c : String),
      lookupCanon m q = some c → (q, c) ∈ m := by
  intro m
  induction m with
  | nil => intro q c h; simp [lookupCanon] at h
  | cons hd rest ih =>
    intro q c h
    obtain ⟨k, v⟩ := hd
    by_cases hk : k = q
    · simp only [lookupCanon, if_pos hk] at h
      injection h with h2
      subst hk; subst h2
      exact List.mem_cons_self _ _
    · simp only [lookupCanon, if_neg hk] at h
      exact List.mem_cons_of_mem _ (ih q c h)

theorem lookupCanon_isSome :
    ∀ (m : List (String × String)) (q : String),
      q ∈ m.map Prod.fst → ∃ c, lookupCanon m q = some c := by
  intro m
  induction m with
  | nil => intro q h; simp at h
  | cons hd rest ih =>
    intro q h
    obtain ⟨k, v⟩ := hd
    by_cases hk : k = q
    · exact ⟨v, by simp [lookupCanon, hk]⟩
    · rw [List.map_cons] at h
      rcases List.mem_cons.1 h with h1 | h1
      · exact absurd h1.symm hk
      · rcases ih q h1 with ⟨c, hc⟩
        exact ⟨c, by simp [lookupCanon, hk, hc]⟩

theorem pickBest_mem_aux (vs : List (String × Nat)) :
    ∀ b : String × Int,
      (vs.foldl pickBest b).1 = b.1 ∨ (vs.foldl pickBest b).1 ∈ vs.map Prod.fst := by
  induction vs with
  | nil => intro b; exact Or.inl rfl
  | cons vc rest ih =>
    intro b
    rw [List.foldl_cons]
    by_cases h : (vc.2 : Int) > b.2
    · have hstep : pickBest b vc = (vc.1, (vc.2 : Int)) := by simp [pickBest, h]
      rw [hstep]
      rcases ih (vc.1, (vc.2 : Int)) with h1 | h1
      · right; rw [h1, List.map_cons]; exact List.mem_cons_self _ _
      · right; rw [List.map_cons]; exact List.mem_cons_of_mem _ h1
    · have hstep : pickBest b vc = b := by simp [pickBest, h]
      rw [hstep]
      rcases ih b with h1 | h1
      · exact Or.inl h1
      · right; rw [List.map_cons]; exact List.mem_cons_of_mem _ h1

theorem bestVariant_mem (k : String) (vs : List (String × Nat)) (h : vs ≠ []) :
    bestVariant k vs ∈ vs.map Prod.fst := by
  match vs, h with
  | vc :: rest, _ =>
    unfold bestVariant
    rw [List.foldl_cons]
    have hcond : (vc.2 : Int) > ((k, (-1 : Int)).2 : Int) := by
      show (vc.2 : Int) > (-1 : Int)
      omega
    have hstep : pickBest (k, (-1 : Int)) vc = (vc.1, (vc.2 : Int)) := by
      simp [pickBest, hcond]
    rw [hstep]
    rcases pickBest_mem_aux rest (vc.1, (vc.2 : Int)) with h1 | h1
    · rw [h1, List.map_cons]; exact List.mem_cons_self _ _
    · rw [List.map_cons]; exact List.mem_cons_of_mem _ h1

theorem canonicalMap_binding {articles : List Article} {k c : String}
    (h : (k, c) ∈ canonicalMap articles) :
    jsToLower c = k ∧ c ∈ allTags articles := by
  unfold canonicalMap at h
  rcases List.mem_map.1 h with ⟨kv, hkv, heq⟩
  obtain ⟨k0, vs⟩ := kv
  have h1 : k0 = k := congrArg Prod.fst heq
  have h2 : bestVariant k0 vs = c := congrArg Prod.snd heq
  have hinv := tagMapInv_buildTagMap articles (k0, vs) hkv
  have hb := bestVariant_mem k0 vs hinv.1
  rw [h2] at hb
  rcases List.mem_map.1 hb with ⟨vc, hvc, hfst⟩
  have hp := hinv.2 vc hvc
  subst h1
  constructor
  · rw [← hfst]; exact hp.1
  · rw [← hfst]; exact hp.2

theorem jsToLower_eq_empty {s : String} (h : jsToLower s = "") : s = "" := by
  have hd : s.data.map Char.toLower = [] := congrArg String.data h
  exact String.ext (List.map_eq_nil_iff.1 hd)

theorem applyCanon_toLower (articles : List Article) (t : String) :
    jsToLower (applyCanon (canonicalMap articles) t) = jsToLower t := by
  unfold applyCanon
  cases hl : lookupCanon (canonicalMap articles) (jsToLower t) with
  | none => rfl
  | some c =>
    have hb := canonicalMap_binding (lookupCanon_mem _ _ _ hl)
    by_cases hc : c = ""
    · simp [hc]
    · simp [hc, hb.1]

theorem applyCanon_uniform {articles : List Article} {t u : String}
    (ht : t ∈ allTags articles) (_hu : u ∈ allTags articles)
    (hlow : jsToLower t = jsToLower u) :
    applyCanon (canonicalMap articles) t = applyCanon (canonicalMap articles) u := by
  obtain ⟨c, hc⟩ := lookupCanon_isSome (canonicalMap articles) (jsToLower t)
    (by rw [keys_canonicalMap]; exact mem_keys_buildTagMap ht)
  have hcu : lookupCanon (canonicalMap articles) (jsToLower u) = some c := by
    rw [← hlow]; exact hc
  unfold applyCanon
  rw [hc, hcu]
  by_cases hce : c = ""
  · have hb := canonicalMap_binding (lookupCanon_mem _ _ _ hc)
    have hk : jsToLower t = "" := by rw [← hb.1, hce]; rfl
    have ht0 : t = "" := jsToLower_eq_empty hk
    have hu0 : u = "" := jsToLower_eq_empty (by rw [← hlow]; exact hk)
    simp [hce, ht0, hu0]
  · simp [hce]

theorem allTags_map (articles : List Article) (f : String → String) :
    allTags (articles.map fun a => { a with tags := a.tags.map f })
      = (allTags articles).map f := by
  induction articles with
  | nil => rfl
  | cons a rest ih =>
    have h1 : allTags ((a :: rest).map fun a => { a with tags := a.tags.map f })
        = a.tags.map f ++ allTags (rest.map fun a => { a with tags := a.tags.map f }) := rfl
    have h2 : allTags (a :: rest) = a.tags ++ allTags rest := rfl
    rw [h1, ih, h2, List.map_append]

theorem mem_allTags {articles : List Article} {a : Article} {t : String}
    (ha : a ∈ articles) (ht : t ∈ a.tags) : t ∈ allTags articles := by
  induction articles with
  | nil => simp at ha
  | cons b rest ih =>
    have hshape : allTags (b :: rest) = b.tags ++ allTags rest := rfl
    rw [hshape]
    rcases List.mem_cons.1 ha with h1 | h1
    · subst h1; exact List.mem_append_left _ ht
    · exact List.mem_append_right _ (ih h1)

theorem list_map_eq_self_iff {α : Type} (f : α → α) (l : List α) :
    l.map f = l ↔ ∀ a ∈ l, f a = a := by
  induction l with
  | nil => simp
  | cons x xs ih =>
    simp only [List.map_cons, List.cons.injEq, List.mem_cons]
    constructor
    · rintro ⟨h1, h2⟩ a ha
      rcases ha with h | h
      · subst h; exact h1
      · exact (ih.1 h2) a h
    · intro h
      exact ⟨h x (Or.inl rfl), ih.2 fun a ha => h a (Or.inr ha)⟩

theorem article_update_tags_eq {a : Article} {ts : List String} :
    ({ a with tags := ts } : Article) = a ↔ ts = a.tags := by
  cases a
  simp

theorem allTags_result_uniform (articles : List Article) :
    ∀ x ∈ allTags (normalizeExistingTags articles).1,
      ∀ y ∈ allTags (normalizeExistingTags articles).1,
        jsToLower x = jsToLower y → x = y := by
  by_cases hempty : articles.length = 0
  · have hnil : articles = [] := List.length_eq_zero.1 hempty
    subst hnil
    intro x hx
    simp [normalizeExistingTags, allTags] at hx
  · have hres : (normalizeExistingTags articles).1
        = articles.map fun a =>
            { a with tags := a.tags.map (applyCanon (canonicalMap articles)) } := by
      simp [normalizeExistingTags, hempty]
    rw [hres, allTags_map]
    intro x hx y hy hlow
    rcases List.mem_map.1 hx with ⟨x0, hx0, hx1⟩
    rcases List.mem_map.1 hy with ⟨y0, hy0, hy1⟩
    subst hx1; subst hy1
    have hl : jsToLower x0 = jsToLower y0 := by
      rw [← applyCanon_toLower articles x0, ← applyCanon_toLower articles y0]
      exact hlow
    exact applyCanon_uniform hx0 hy0 hl

theorem applyCanon_fixed_after (articles : List Article) :
    ∀ t ∈ allTags (normalizeExistingTags articles).1,
      applyCanon (canonicalMap (normalizeExistingTags articles).1) t = t := by
  intro t ht
  obtain ⟨c, hc⟩ := lookupCanon_isSome
    (canonicalMap (normalizeExistingTags articles).1) (jsToLower t)
    (by rw [keys_canonicalMap]; exact mem_keys_buildTagMap ht)
  have hb := canonicalMap_binding (lookupCanon_mem _ _ _ hc)
  have hct : c = t := allTags_result_uniform articles c hb.2 t ht hb.1
  unfold applyCanon
  rw [hc]
  by_cases hce : c = ""
  · simp [hce]
  · simp [hce, hct]

/-- A collection on which the canonical map is the identity on every
tag is a fixed point of the normalizer: no rewrite, zero writes. -/
theorem normalizeExistingTags_fixed (as : List Article)
    (hfix : ∀ a ∈ as, a.tags.map (applyCanon (canonicalMap as)) = a.tags) :
    normalizeExistingTags as = (as, 0) := by
  by_cases h : as.length = 0
  · have hnil := List.length_eq_zero.1 h
    subst hnil
    rfl
  · simp only [normalizeExistingTags, if_neg h]
    have hmap : (as.map fun a =>
        { a with tags := a.tags.map (applyCanon (canonicalMap as)) }) = as := by
      rw [list_map_eq_self_iff]
      intro a ha
      rw [article_update_tags_eq]
      exact hfix a ha
    have hfil : (as.filter fun a =>
        a.tags.map (applyCanon (canonicalMap as)) ≠ a.tags) = [] := by
      rw [List.filter_eq_nil_iff]
      intro a ha
      simp [hfix a ha]
    rw [hmap, hfil]
    rfl

/-- **C5.** The tag normalizer persists only when some article's tag
list actually changed — the write count is zero exactly when the pass
leaves the collection untouched — and it is idempotent: running it again
on its own output performs zero writes and changes no article.  The two
closing conjuncts pin the canonical-form choice on concrete collections:
the most frequent casing wins, and on a tie the first-encountered
variant wins. -/
theorem normalizeExistingTags_spec :
    (∀ articles : List Article,
      ((normalizeExistingTags articles).2 = 0 ↔
        (normalizeExistingTags articles).1 = articles)) ∧
    (∀ articles : List Article,
      normalizeExistingTags (normalizeExistingTags articles).1
        = ((normalizeExistingTags articles).1, 0)) ∧
    canonicalMap [{ sampleArticle with tags := ["Design", "design", "design"] }]
      = [("design", "design")] ∧
    canonicalMap [{ sampleArticle with tags := ["Ab", "aB"] }] = [("ab", "Ab")] := by
  refine ⟨?_, ?_, by decide, by decide⟩
  · intro articles
    by_cases hempty : articles.length = 0
    · have hnil := List.length_eq_zero.1 hempty
      subst hnil
      simp [normalizeExistingTags]
    · simp only [normalizeExistingTags, if_neg hempty]
      constructor
      · intro h
        have hfil := List.length_eq_zero.1 h
        have hall := List.filter_eq_nil_iff.1 hfil
        rw [list_map_eq_self_iff]
        intro a ha
        rw [article_update_tags_eq]
        have := hall a ha
        simpa using this
      · intro h
        have hall := (list_map_eq_self_iff _ articles).1 h
        have hfil : (articles.filter fun a =>
            a.tags.map (applyCanon (canonicalMap articles)) ≠ a.tags) = [] := by
          rw [List.filter_eq_nil_iff]
          intro a ha
          have := (article_update_tags_eq).1 (hall a ha)
          simp [this]
        rw [hfil]
        rfl
  · intro articles
    apply normalizeExistingTags_fixed
    intro a ha
    rw [list_map_eq_self_iff]
    intro t ht
    exact applyCanon_fixed_after articles t (mem_allTags ha ht)

/-! ## HTML Readability Extractor: `ContentFetcher.extractContent` -/

/-- A parsed DOM node: an element carrying its (lowercase) tag name, id
attribute, class list and role attribute, or a text node. -/
inductive DomNode where
  | text (s : String)
  | elem (tag : String) (idAttr : String) (classes : List String)
      (role : String) (children : List DomNode)

mutual

/-- `el.textContent`: the concatenation of all descendant text. -/
def textContent : DomNode → String
  | .text s => s
  | .elem _ _ _ _ cs => textContentList cs

def textContentList : List DomNode → String
  | [] => ""
  | c :: cs => textContent c ++ textContentList cs

end

/-- Tag names of the removal deny-list (`removeSelectors`). -/
def removeTagNames : List String :=
  ["script", "style", "noscript", "nav", "header", "footer", "aside",
   "iframe", "form", "button", "input", "select"]

/-- Class names of the removal deny-list. -/
def removeClassNames : List String :=
  ["nav", "navigation", "menu", "sidebar", "widget",
   "advertisement", "ads", "ad", "advert", "sponsor",
   "social", "share", "sharing", "social-share",
   "comments", "comment-section", "disqus",
   "related", "recommended", "more-articles", "read-more",
   "cookie", "popup", "modal", "overlay", "newsletter",
   "author-bio", "author-box", "byline-block",
   "tags", "categories", "meta-box",
   "breadcrumb", "breadcrumbs",
   "pagination", "pager"]

def removeIdNames : List String := ["comments"]

def removeRoleNames : List String := ["navigation", "banner", "contentinfo"]

/-- Whether an element is matched by some entry of `removeSelectors`. -/
def matchesRemoveSelector : DomNode → Bool
  | .text _ => false
  | .elem tag idAttr classes role _ =>
    removeTagNames.contains tag || classes.any (removeClassNames.contains ·) ||
      removeIdNames.contains idAttr || removeRoleNames.contains role

mutual

/-- The boilerplate-removal pass: the sequential
`querySelectorAll(sel).forEach(el => el.remove())` passes delete every
element matching any deny-list entry together with its subtree, which is
one top-down prune. -/
def pruneNode : DomNode → Option DomNode
  | .text s => some (.text s)
  | .elem t i c r cs =>
    if matchesRemoveSelector (.elem t i c r cs) then none
    else some (.elem t i c r (pruneList cs))

def pruneList : List DomNode → List DomNode
  | [] => []
  | c :: cs =>
    match pruneNode c with
    | some c2 => c2 :: pruneList cs
    | none => pruneList cs

end

/-- The ordered `contentSelectors` list, one matcher per selector.  The
flag says whether the node has an `article` ancestor (needed only by
selector 11, `article .content`). -/
def contentSelMatch : Nat → Bool → DomNode → Bool
  | _, _, .text _ => false
  | 0, _, .elem t _ _ r _ => t = "article" && r = "main"
  | 1, _, .elem t _ c _ _ => t = "article" && c.contains "post-content"
  | 2, _, .elem t _ c _ _ => t = "article" && c.contains "article-content"
  | 3, _, .elem _ _ c _ _ => c.contains "post-content"
  | 4, _, .elem _ _ c _ _ => c.contains "article-content"
  | 5, _, .elem _ _ c _ _ => c.contains "article-body"
  | 6, _, .elem _ _ c _ _ => c.contains "entry-content"
  | 7, _, .elem _ _ c _ _ => c.contains "story-body"
  | 8, _, .elem _ _ c _ _ => c.contains "story-content"
  | 9, _, .elem _ _ c _ _ => c.contains "post-body"
  | 10, _, .elem _ _ c _ _ => c.contains "content-body"
  | 11, anc, .elem _ _ c _ _ => anc && c.contains "content"
  | 12, _, .elem t _ _ _ _ => t = "article"
  | 13, _, .elem _ _ _ r _ => r = "main"
  | 14, _, .elem t _ _ _ _ => t = "main"
  | 15, _, .elem _ _ c _ _ => c.contains "content"
  | 16, _, .elem _ i _ _ _ => i = "content"
  | 17, _, .elem _ i _ _ _ => i = "main"
  | 18, _, .elem _ _ c _ _ => c.contains "post"
  | 19, _, .elem _ _ c _ _ => c.contains "article"
  | _, _, .elem _ _ _ _ _ => false

mutual

/-- `doc.querySelector` for selector `i`: first match in document
(pre-)order.  `anc` records whether an `article` ancestor has been
passed. -/
def queryNode (i : Nat) (anc : Bool) : DomNode → Option DomNode
  | .text _ => none
  | .elem t idA cls r cs =>
    if contentSelMatch i anc (.elem t idA cls r cs) then some (.elem t idA cls r cs)
    else queryList i (anc || t = "article") cs

def queryList (i : Nat) (anc : Bool) : List DomNode → Option DomNode
  | [] => none
  | c :: cs =>
    match queryNode i anc c with
    | some n => some n
    | none => queryList i anc cs

end

/-- Walk the selector list in order; accept the first match whose
trimmed text exceeds 300 characters, else keep trying. -/
def trySelectors (doc : DomNode) : List Nat → Option DomNode
  | [] => none
  | i :: rest =>
    match queryNode i false doc with
    | some el =>
      if 300 < (jsTrim (textContent el)).length then some el
      else trySelectors doc rest
    | none => trySelectors doc rest

def selectContentEl (doc : DomNode) : Option DomNode :=
  trySelectors doc (List.range 20)

/-- The block-level tags collected by
`querySelectorAll('p, h1, h2, h3, h4, h5, h6, li, blockquote, pre, td, th')`. -/
def textTagNames : List String :=
  ["p", "h1", "h2", "h3", "h4", "h5", "h6", "li", "blockquote", "pre", "td", "th"]

def headingTagNames : List String := ["h1", "h2", "h3", "h4", "h5", "h6"]

def nodeTag : DomNode → String
  | .text _ => ""
  | .elem t _ _ _ _ => t

mutual

/-- All descendant elements with a block-level text tag, in document
order (`querySelectorAll` on the content element matches descendants
only). -/
def collectTextEls : DomNode → List DomNode
  | .text _ => []
  | .elem _ _ _ _ cs => collectTextElsList cs

def collectTextElsList : List DomNode → List DomNode
  | [] => []
  | c :: cs =>
    (match c with
     | .elem t i cl r ccs =>
       (if textTagNames.contains t then [DomNode.elem t i cl r ccs] else [])
         ++ collectTextEls (.elem t i cl r ccs)
     | .text _ => []) ++ collectTextElsList cs

end

/-- The leading-UI-noise test
`/^(share|tweet|pin|email|print|comments?|reply|subscribe|sign up|log in|menu|search)/i`;
`comments?` is prefix-equivalent to `comment`. -/
def uiNoiseHeads : List String :=
  ["share", "tweet", "pin", "email", "print", "comment", "reply",
   "subscribe", "sign up", "log in", "menu", "search"]

def startsWithUiNoise (text : String) : Bool :=
  uiNoiseHeads.any fun p => p.data.isPrefixOf (jsToLower text).data

/-- The structural text assembly: trimmed text of every collected
element, dropping fragments under 30 characters and UI-noise fragments,
and prefixing heading text with a markdown marker. -/
def extractParagraphs (contentEl : DomNode) : List String :=
  (collectTextEls contentEl).foldl
    (fun acc el =>
      let text := jsTrim (textContent el)
      if text.length < 30 then acc
      else if startsWithUiNoise text then acc
      else if headingTagNames.contains (nodeTag el) then acc ++ ["\n## " ++ text]
      else acc ++ [text])
    []

/-- `.replace(/\s+/g, ' ')`: collapse every whitespace run to one
space. -/
def collapseWsAux : Bool → List Char → List Char
  | _, [] => []
  | prev, c :: cs =>
    if jsIsWs c then
      if prev then collapseWsAux true cs else ' ' :: collapseWsAux true cs
    else c :: collapseWsAux false cs

def collapseWs (s : String) : String :=
  ⟨collapseWsAux false s.data⟩

def isSentTerm (c : Char) : Bool := c = '.' || c = '!' || c = '?'

def isUpperAZ (c : Char) : Bool := 'A' ≤ c && c ≤ 'Z'

def isSentTermOpt : Option Char → Bool
  | some c => isSentTerm c
  | none => false

def isUpperAZOpt : Option Char → Bool
  | some c => isUpperAZ c
  | none => false

/-- `split(/(?<=[.!?])\s+(?=[A-Z])/)` on whitespace-collapsed text
(runs of whitespace are already single spaces there): cut at a space
whose predecessor — the head of the reversed accumulator — is a
sentence terminator and whose successor is an uppercase letter,
consuming the space. -/
def splitSentencesAux (acc : List Char) : List Char → List (List Char)
  | [] => [acc.reverse]
  | c :: cs =>
    if c = ' ' && isSentTermOpt acc.head? && isUpperAZOpt cs.head? then
      acc.reverse :: splitSentencesAux [] cs
    else splitSentencesAux (c :: acc) cs

def splitSentences (s : String) : List String :=
  (splitSentencesAux [] s.data).map fun l => ⟨l⟩

/-- One iteration of the chunking loop: skip sentences under 20
characters, accumulate the rest, and flush the chunk once it exceeds
200 characters. -/
def chunkStep (st : List String × String) (sentence : String) : List String × String :=
  if sentence.length < 20 then st
  else
    let cur := st.2 ++ sentence ++ " "
    if 200 < cur.length then (st.1 ++ [jsTrim cur], "") else (st.1, cur)

/-- The low-yield fallback: flatten the content node's text, split it
into sentences, build chunks of ~200 characters, keep a trailing chunk
only above 50 characters, and join with blank lines. -/
def sentenceFallback (contentEl : DomNode) : String :=
  let allText := jsTrim (collapseWs (textContent contentEl))
  let st := (splitSentences allText).foldl chunkStep ([], "")
  let chunks := if 50 < st.2.length then st.1 ++ [jsTrim st.2] else st.1
  String.intercalate "\n\n" chunks

/-- `ContentFetcher.extractContent`: prune the deny-list, select the
content node (falling back to the body, and to the empty string when
even the body was pruned), assemble the structural paragraphs, and take
the sentence fallback when their joined length is under 500. -/
def extractContent (doc : DomNode) : String :=
  match pruneNode doc with
  | none => ""
  | some pruned =>
    let contentEl := (selectContentEl pruned).getD pruned
    let paragraphs := extractParagraphs contentEl
    if (String.intercalate " " paragraphs).length < 500 then sentenceFallback contentEl
    else String.intercalate "\n\n" paragraphs

/-- A document whose only content is a single paragraph holding the
text `s`. -/
def mkParagraphDoc (s : String) : DomNode :=
  .elem "body" "" [] "" [.elem "p" "" [] "" [.text s]]

/-! ### C7: the 40-character-paragraph scenario -/

theorem length_dropWhile_le (p : Char → Bool) (l : List Char) :
    (l.dropWhile p).length ≤ l.length := by
  induction l with
  | nil => simp
  | cons c cs ih =>
    by_cases h : p c
    · rw [List.dropWhile_cons, if_pos h]
      exact le_trans ih (Nat.le_succ _)
    · rw [List.dropWhile_cons, if_neg h]

theorem jsTrim_length_le (s : String) : (jsTrim s).length ≤ s.length := by
  show (((s.data.dropWhile jsIsWs).reverse.dropWhile jsIsWs).reverse).length ≤ s.data.length
  rw [List.length_reverse]
  calc ((s.data.dropWhile jsIsWs).reverse.dropWhile jsIsWs).length
      ≤ (s.data.dropWhile jsIsWs).reverse.length := length_dropWhile_le _ _
    _ = (s.data.dropWhile jsIsWs).length := List.length_reverse _
    _ ≤ s.data.length := length_dropWhile_le _ _

theorem collapseWsAux_length_le (l : List Char) :
    ∀ b, (collapseWsAux b l).length ≤ l.length := by
  induction l with
  | nil => intro b; simp [collapseWsAux]
  | cons c cs ih =>
    intro b
    by_cases h : jsIsWs c
    · cases b with
      | true =>
        rw [show collapseWsAux true (c :: cs) = collapseWsAux true cs from by
          simp [collapseWsAux, h]]
        exact le_trans (ih true) (Nat.le_succ _)
      | false =>
        rw [show collapseWsAux false (c :: cs) = ' ' :: collapseWsAux true cs from by
          simp [collapseWsAux, h]]
        simpa using ih true
    · rw [show collapseWsAux b (c :: cs) = c :: collapseWsAux false cs from by
        simp [collapseWsAux, h]]
      simpa using ih false

theorem collapseWs_length_le (s : String) : (collapseWs s).length ≤ s.length :=
  collapseWsAux_length_le s.data false

/-- Total character count of a list of character lists. -/
def sumLens (ls : List (List Char)) : Nat :=
  ls.foldr (fun l n => l.length + n) 0

/-- Total character count of a list of strings. -/
def sumStrLens (ls : List String) : Nat :=
  ls.foldr (fun s n => s.length + n) 0

theorem splitSentencesAux_sumLens (l : List Char) :
    ∀ acc, sumLens (splitSentencesAux acc l) ≤ acc.length + l.length := by
  induction l with
  | nil => intro acc; simp [splitSentencesAux, sumLens]
  | cons c cs ih =>
    intro acc
    by_cases h : (c = ' ' && isSentTermOpt acc.head? && isUpperAZOpt cs.head?) = true
    · rw [show splitSentencesAux acc (c :: cs)
          = acc.reverse :: splitSentencesAux [] cs from by
        simp only [splitSentencesAux]; rw [if_pos h]]
      have h1 := ih []
      show acc.reverse.length + sumLens (splitSentencesAux [] cs) ≤ acc.length + (cs.length + 1)
      rw [List.length_reverse]
      simp only [List.length_nil, Nat.zero_add] at h1
      omega
    · rw [show splitSentencesAux acc (c :: cs)
          = splitSentencesAux (c :: acc) cs from by
        simp only [splitSentencesAux]; rw [if_neg h]]
      have h1 := ih (c :: acc)
      simp only [List.length_cons] at h1
      simp only [List.length_cons]
      omega

theorem sumStrLens_splitSentences (s : String) :
    sumStrLens (splitSentences s) ≤ s.length := by
  have hmap : ∀ ls : List (List Char),
      sumStrLens (ls.map fun l => (⟨l⟩ : String)) = sumLens ls := by
    intro ls
    induction ls with
    | nil => rfl
    | cons x xs ih => simp [sumStrLens, sumLens] at ih ⊢; exact ih
  show sumStrLens ((splitSentencesAux [] s.data).map fun l => (⟨l⟩ : String)) ≤ s.length
  rw [hmap]
  simpa using splitSentencesAux_sumLens s.data []

/-- The growth the chunking loop can extract from a sentence list: a
kept sentence (length at least 20) contributes its length plus the
separating space. -/
def chunkWeight (sentences : List String) : Nat :=
  sentences.foldr (fun s n => if s.length < 20 then n else s.length + 1 + n) 0

theorem chunkWeight_le (sentences : List String) :
    20 * chunkWeight sentences ≤ 21 * sumStrLens sentences := by
  induction sentences with
  | nil => simp [chunkWeight, sumStrLens]
  | cons s rest ih =>
    by_cases h : s.length < 20
    · rw [show chunkWeight (s :: rest) = chunkWeight rest from by simp [chunkWeight, h]]
      rw [show sumStrLens (s :: rest) = s.length + sumStrLens rest from rfl]
      omega
    · rw [show chunkWeight (s :: rest) = s.length + 1 + chunkWeight rest from by
        simp [chunkWeight, h]]
      rw [show sumStrLens (s :: rest) = s.length + sumStrLens rest from rfl]
      omega

theorem chunkFold_bound (sentences : List String) :
    ∀ (chunks : List String) (cur : String),
      cur.length + chunkWeight sentences ≤ 200 →
      (sentences.foldl chunkStep (chunks, cur)).1 = chunks ∧
      (sentences.foldl chunkStep (chunks, cur)).2.length
        ≤ cur.length + chunkWeight sentences := by
  induction sentences with
  | nil =>
    intro chunks cur h
    exact ⟨rfl, by simp [chunkWeight]⟩
  | cons s rest ih =>
    intro chunks cur h
    rw [List.foldl_cons]
    by_cases hs : s.length < 20
    · rw [show chunkStep (chunks, cur) s = (chunks, cur) from by simp [chunkStep, hs]]
      have hw : chunkWeight (s :: rest) = chunkWeight rest := by simp [chunkWeight, hs]
      rw [hw] at h ⊢
      exact ih chunks cur h
    · have hw : chunkWeight (s :: rest) = s.length + 1 + chunkWeight rest := by
        simp [chunkWeight, hs]
      have hcur2 : (cur ++ s ++ " ").length = cur.length + s.length + 1 := by
        rw [String.length_append, String.length_append]
        rfl
      have hnot : ¬ 200 < (cur ++ s ++ " ").length := by
        rw [hcur2]; rw [hw] at h; omega
      rw [show chunkStep (chunks, cur) s = (chunks, cur ++ s ++ " ") from by
        simp only [chunkStep, if_neg hs]
        rw [if_neg hnot]]
      have h2 : (cur ++ s ++ " ").length + chunkWeight rest ≤ 200 := by
        rw [hcur2]; rw [hw] at h; omega
      rcases ih chunks (cur ++ s ++ " ") h2 with ⟨h3, h4⟩
      refine ⟨h3, ?_⟩
      rw [hcur2] at h4
      rw [hw]
      omega

/-- When the flattened text of the content node is at most 40
characters, the sentence fallback builds no chunk at all — every kept
tail stays at or below 42 characters, under the 50-character minimum —
and returns the empty string. -/
theorem sentenceFallback_of_short (el : DomNode)
    (h : (jsTrim (collapseWs (textContent el))).length ≤ 40) :
    sentenceFallback el = "" := by
  simp only [sentenceFallback]
  have hsum := le_trans
    (sumStrLens_splitSentences (jsTrim (collapseWs (textContent el)))) h
  have hweight := chunkWeight_le (splitSentences (jsTrim (collapseWs (textContent el))))
  have hw42 : chunkWeight (splitSentences (jsTrim (collapseWs (textContent el)))) ≤ 42 := by
    have : 21 * sumStrLens (splitSentences (jsTrim (collapseWs (textContent el)))) ≤ 21 * 40 :=
      Nat.mul_le_mul_left 21 hsum
    omega
  have hzero : ("" : String).length = 0 := rfl
  have hfold := chunkFold_bound
    (splitSentences (jsTrim (collapseWs (textContent el)))) [] ""
    (by rw [hzero]; omega)
  rcases hfold with ⟨h1, h2⟩
  rw [hzero] at h2
  have hno : ¬ 50 < ((splitSentences (jsTrim (collapseWs (textContent el)))).foldl
      chunkStep ([], "")).2.length := by
    omega
  rw [if_neg hno, h1]
  rfl

theorem textContent_mkParagraphDoc (s : String) : textContent (mkParagraphDoc s) = s := by
  show (s ++ "") ++ "" = s
  rw [String.append_empty, String.append_empty]

theorem extractParagraphs_mkParagraphDoc (s : String) :
    extractParagraphs (mkParagraphDoc s)
      = if (jsTrim s).length < 30 then []
        else if startsWithUiNoise (jsTrim s) then [] else [jsTrim s] := by
  have hc : collectTextEls (mkParagraphDoc s)
      = [DomNode.elem "p" "" [] "" [DomNode.text s]] := rfl
  have htc : textContent (DomNode.elem "p" "" [] "" [DomNode.text s]) = s := by
    show s ++ "" = s
    exact String.append_empty s
  simp only [extractParagraphs, hc, List.foldl_cons, List.foldl_nil, htc]
  by_cases h30 : (jsTrim s).length < 30
  · rw [if_pos h30, if_pos h30]
  · rw [if_neg h30, if_neg h30]
    by_cases hn : startsWithUiNoise (jsTrim s) = true
    · rw [if_pos hn, if_pos hn]
    · rw [if_neg hn, if_neg hn]
      rw [show headingTagNames.contains
        (nodeTag (DomNode.elem "p" "" [] "" [DomNode.text s])) = false from rfl]
      simp

set_option maxRecDepth 40000 in
/-- **C7 counterexample.** A document whose only content is this single
40-character paragraph extracts to the empty string, not to non-empty
text: the lone sentence (41 characters with its appended space) never
crosses the 200-character flush bound, and the trailing chunk is
dropped by the 50-character minimum. -/
theorem extractContent_forty_char_empty :
    extractContent (mkParagraphDoc "It is a sunny day in the green park now.") = "" := by
  decide

/-- **C7 amended.** For every document whose only content is a single
40-character paragraph, extraction does take the low-yield fallback path
— the assembled structural text stays under the 500-character threshold
— but the sentence-bounded chunking of the flattened text then returns
the empty string rather than non-empty text, because no chunk can reach
the 200-character flush bound and the trailing chunk (at most 42
characters) is below the 50-character minimum. -/
theorem extract_forty_char_paragraph_fallback :
    ∀ s : String, s.length = 40 →
      (String.intercalate " " (extractParagraphs (mkParagraphDoc s))).length < 500 ∧
      extractContent (mkParagraphDoc s) = sentenceFallback (mkParagraphDoc s) ∧
      extractContent (mkParagraphDoc s) = "" := by
  intro s hs
  have hjoin : (String.intercalate " "
      (extractParagraphs (mkParagraphDoc s))).length < 500 := by
    rw [extractParagraphs_mkParagraphDoc]
    by_cases h30 : (jsTrim s).length < 30
    · rw [if_pos h30]; decide
    · rw [if_neg h30]
      by_cases hn : startsWithUiNoise (jsTrim s) = true
      · rw [if_pos hn]; decide
      · rw [if_neg hn]
        rw [show String.intercalate " " [jsTrim s] = jsTrim s from rfl]
        have := jsTrim_length_le s
        omega
  have hfb : extractContent (mkParagraphDoc s) = sentenceFallback (mkParagraphDoc s) := by
    have hprune : pruneNode (mkParagraphDoc s) = some (mkParagraphDoc s) := rfl
    have hsel : selectContentEl (mkParagraphDoc s) = none := rfl
    simp only [extractContent, hprune, hsel, Option.getD]
    rw [if_pos hjoin]
  have hempty : sentenceFallback (mkParagraphDoc s) = "" := by
    apply sentenceFallback_of_short
    rw [textContent_mkParagraphDoc]
    calc (jsTrim (collapseWs s)).length
        ≤ (collapseWs s).length := jsTrim_length_le _
      _ ≤ s.length := collapseWs_length_le _
      _ = 40 := hs
  exact ⟨hjoin, hfb, hfb.trans hempty⟩

set_option maxRecDepth 40000 in
/-- **C7 amended witness.** The concrete 40-character paragraph takes
the fallback path. -/
theorem extract_forty_char_paragraph_fallback_witness :
    (String.intercalate " " (extractParagraphs (mkParagraphDoc
        "It is a sunny day in the green park now."))).length < 500 ∧
    extractContent (mkParagraphDoc "It is a sunny day in the green park now.")
      = sentenceFallback (mkParagraphDoc "It is a sunny day in the green park now.") :=
  ⟨(extract_forty_char_paragraph_fallback
      "It is a sunny day in the green park now." (by decide)).1,
   (extract_forty_char_paragraph_fallback
      "It is a sunny day in the green park now." (by decide)).2.1⟩
